import Mathlib

/-!
# Verification of the demo2apk build-queue core

Shallow embedding of the task queue, worker pool, lifecycle tracking,
retention sweeper and status query of the demo2apk repository
(`packages/backend/src/services/queue.ts`, the worker entry in
`packages/backend/src/index.ts`, `packages/core/src/builders/html-builder.ts`,
and the polling store in `packages/frontend/src/hooks/useBuildStore.ts`),
together with proofs of the specified properties.

Timestamps (`Date.now()`, `mtimeMs`, ISO strings compared by age) are
modelled as natural numbers; JavaScript strings are modelled as `String`.
-/

/-- Build variant, `BuildType` of `services/queue.ts` extended with the
`'html-project'` variant dispatched by the worker (`index.ts`). -/
inductive BuildType where
  | html
  | zip
  | htmlProject
deriving DecidableEq, Repr

/-- `BuildJobData` of `services/queue.ts` (with the optional fields the
worker reads: `appVersion`, `iconPath`, `permissions`, `zipProjectRoot`). -/
structure BuildJobData where
  taskId : String
  type : BuildType
  filePath : String
  appName : String
  appId : Option String := none
  appVersion : Option String := none
  iconPath : Option String := none
  permissions : Option (List String) := none
  outputDir : String
  createdAt : String
  zipProjectRoot : Option String := none
deriving DecidableEq, Repr

/-- `BuildJobProgress` of `services/queue.ts`. -/
structure BuildJobProgress where
  message : String
  percent : Nat
deriving DecidableEq, Repr

/-- `BuildJobResult` of `services/queue.ts`. -/
structure BuildJobResult where
  success : Bool
  apkPath : Option String := none
  error : Option String := none
  duration : Option Nat := none
deriving DecidableEq, Repr

/-- The `removeOnComplete` / `removeOnFail` option shapes of
`defaultJobOptions` in `getBuildQueue` (`services/queue.ts`). -/
structure RemoveOnOption where
  age : Nat
  count : Option Nat := none
deriving DecidableEq, Repr

/-- The `defaultJobOptions` shape passed to the BullMQ `Queue`
constructor in `getBuildQueue` (`services/queue.ts`). -/
structure JobOptions where
  removeOnComplete : RemoveOnOption
  removeOnFail : RemoveOnOption
  attempts : Nat
deriving DecidableEq, Repr

/-- The literal `defaultJobOptions` of `getBuildQueue` in
`services/queue.ts`: keep completed jobs 24h (at most 1000), failed jobs
7 days, and `attempts: 1` (no automatic retries for builds). -/
def defaultJobOptions : JobOptions :=
  { removeOnComplete := { age := 3600 * 24, count := some 1000 }
    removeOnFail := { age := 3600 * 24 * 7 }
    attempts := 1 }

/-- JavaScript `a || d` for an optional environment string: `undefined`
and the empty string are falsy and fall through to the default. -/
def jsOrDefault (v : Option String) (d : String) : String :=
  match v with
  | none => d
  | some s => if s = "" then d else s

/-- The digits consumed by JavaScript `parseInt(s, 10)` after optional
whitespace and sign. -/
def leadingDigits (cs : List Char) : List Char :=
  cs.takeWhile (fun c => c.isDigit)

/-- Numeric value of a digit list (base 10). -/
def digitsVal (cs : List Char) : Nat :=
  cs.foldl (fun n c => 10 * n + (c.toNat - '0'.toNat)) 0

/-- JavaScript `parseInt(s, 10)`: skip whitespace, optional sign, read a
decimal digit run; `none` models `NaN`. -/
def jsParseInt (s : String) : Option Int :=
  let cs := s.data.dropWhile (fun c => c.isWhitespace)
  match cs with
  | '-' :: rest =>
    if leadingDigits rest = [] then none else some (-(digitsVal (leadingDigits rest) : Int))
  | '+' :: rest =>
    if leadingDigits rest = [] then none else some (digitsVal (leadingDigits rest) : Int)
  | _ =>
    if leadingDigits cs = [] then none else some (digitsVal (leadingDigits cs) : Int)

/-- The worker concurrency read once at startup by `createBuildWorker`
(`services/queue.ts`): `parseInt(process.env.WORKER_CONCURRENCY || '2', 10)`. -/
def workerConcurrencyOf (env : Option String) : Option Int :=
  jsParseInt (jsOrDefault env "2")

/-- `process.env.CLEANUP_UPLOADS_ON_COMPLETE !== 'false'` (worker entry in
`index.ts`): enabled unless explicitly set to the string `false`. -/
def cleanupUploadsFlag (env : Option String) : Bool :=
  env ≠ some "false"

/-- BullMQ job states as returned by `job.getState()` and consumed by
`getJobStatus` / `removeJob` in `services/queue.ts`. -/
inductive BullJobState where
  | waiting
  | delayed
  | prioritized
  | active
  | completed
  | failed
deriving DecidableEq, Repr

/-- A BullMQ job record as used by the backend: data, current state,
last reported progress, return value, failure reason, and the enqueue
timestamp (the task's `queuedAt`). -/
structure BullJob where
  data : BuildJobData
  state : BullJobState
  progress : Option BuildJobProgress := none
  returnvalue : Option BuildJobResult := none
  failedReason : Option String := none
  timestamp : Nat
deriving DecidableEq, Repr

/-- The queue store keyed by job id (`jobId: data.taskId` in
`addBuildJob`). An association list ordered by insertion. -/
structure QueueState where
  jobs : List (String × BullJob)
deriving DecidableEq, Repr

/-- `getJob` of `services/queue.ts`: `queue.getJob(taskId)`. -/
def getJob (q : QueueState) (taskId : String) : Option BullJob :=
  (q.jobs.find? (fun kv => kv.1 = taskId)).map (fun kv => kv.2)

/-- Modelled from the spec: the BullMQ `Queue.add` call itself lives in
the external `bullmq` package, not under `src/`. Per the spec (§4.1,
`enqueue(spec) -> TaskRecord` is "idempotent on `spec.id`"): adding a job
with an explicit `jobId` that already exists returns the existing record
unchanged and schedules nothing; otherwise it creates a job in the
`waiting` state with `queuedAt = now`. -/
def queueAdd (q : QueueState) (jobId : String) (data : BuildJobData) (now : Nat) :
    BullJob × QueueState :=
  match getJob q jobId with
  | some j => (j, q)
  | none =>
    let j : BullJob := { data := data, state := .waiting, timestamp := now }
    (j, { jobs := q.jobs ++ [(jobId, j)] })

/-- `addBuildJob` of `services/queue.ts`: enqueue with `jobId: data.taskId`,
so the task id is the dedup key. -/
def addBuildJob (q : QueueState) (data : BuildJobData) (now : Nat) :
    BullJob × QueueState :=
  queueAdd q data.taskId data now

/-- Pointwise update of the job stored under `id`. -/
def setJob (q : QueueState) (id : String) (f : BullJob → BullJob) : QueueState :=
  { jobs := q.jobs.map (fun kv => if kv.1 = id then (kv.1, f kv.2) else kv) }

/-- State transition of the job under `id`. -/
def setJobState (q : QueueState) (id : String) (st : BullJobState) : QueueState :=
  setJob q id (fun j => { j with state := st })

/-- `job.updateProgress(...)` as driven by the worker's `onProgress`
callback (`index.ts`): last-value-wins overwrite of the progress field. -/
def setJobProgress (q : QueueState) (id : String) (p : BuildJobProgress) : QueueState :=
  setJob q id (fun j => { j with progress := some p })

/-- The processor promise resolved with `r`: BullMQ marks the job
completed and stores the return value. -/
def completeJob (q : QueueState) (id : String) (r : BuildJobResult) : QueueState :=
  setJob q id (fun j => { j with state := .completed, returnvalue := some r })

/-- The processor promise rejected with message `e`: BullMQ marks the job
failed and stores `failedReason`. -/
def failJob (q : QueueState) (id : String) (e : String) : QueueState :=
  setJob q id (fun j => { j with state := .failed, failedReason := some e })

/-- Number of jobs currently in the `active` state. -/
def activeCount (q : QueueState) : Nat :=
  q.jobs.countP (fun kv => kv.2.state = .active)

/-- The BullMQ states reported as `'pending'` by `getJobStatus`
(`services/queue.ts`): `waiting`, `delayed`, `prioritized`. -/
def isPendingState : BullJobState → Bool
  | .waiting => true
  | .delayed => true
  | .prioritized => true
  | _ => false

/-- The currently pending entries of the store, in insertion order. -/
def pendingJobs (q : QueueState) : List (String × BullJob) :=
  q.jobs.filter (fun kv => isPendingState kv.2.state)

/-- The `status` discriminator returned by `getJobStatus`
(`services/queue.ts`). -/
inductive JobStatus where
  | pending
  | active
  | completed
  | failed
  | notFound
deriving DecidableEq, Repr

/-- The record returned by `getJobStatus` (`services/queue.ts`). -/
structure JobStatusView where
  status : JobStatus
  progress : Option BuildJobProgress := none
  result : Option BuildJobResult := none
  error : Option String := none
  createdAt : Option String := none
deriving DecidableEq, Repr

/-- `getJobStatus` of `services/queue.ts`: dispatch on `job.getState()`;
missing job yields `not_found`; `waiting`/`delayed`/`prioritized` map to
`pending` with no progress or result. -/
def getJobStatus (q : QueueState) (taskId : String) : JobStatusView :=
  match getJob q taskId with
  | none => { status := .notFound }
  | some job =>
    match job.state with
    | .completed =>
      { status := .completed, progress := job.progress, result := job.returnvalue
        createdAt := some job.data.createdAt }
    | .failed =>
      { status := .failed, progress := job.progress, error := job.failedReason
        createdAt := some job.data.createdAt }
    | .active =>
      { status := .active, progress := job.progress
        createdAt := some job.data.createdAt }
    | .waiting => { status := .pending, createdAt := some job.data.createdAt }
    | .delayed => { status := .pending, createdAt := some job.data.createdAt }
    | .prioritized => { status := .pending, createdAt := some job.data.createdAt }

/-- `removeJob` of `services/queue.ts`: missing job or `active` state
returns `false` with no side effect; any other state removes the record
and returns `true`. -/
def removeJob (q : QueueState) (taskId : String) : Bool × QueueState :=
  match getJob q taskId with
  | none => (false, q)
  | some j =>
    if j.state = .active then (false, q)
    else (true, { jobs := q.jobs.filter (fun kv => kv.1 ≠ taskId) })

/-- Relation `tsLe`: ordering of queue entries by enqueue timestamp
(`queuedAt` ascending), used to rank pending records. -/
def tsLe (a b : String × BullJob) : Prop :=
  a.2.timestamp ≤ b.2.timestamp

instance : DecidableRel tsLe := fun a b => Nat.decLe a.2.timestamp b.2.timestamp

instance : IsTotal (String × BullJob) tsLe :=
  ⟨fun a b => Nat.le_total a.2.timestamp b.2.timestamp⟩

instance : IsTrans (String × BullJob) tsLe :=
  ⟨fun _ _ _ hab hbc => Nat.le_trans hab hbc⟩

/-- Modelled from the spec: the status route (`routes/status.ts`) is not
under `src/`. Per the spec (§4.1): `peekPosition(id) -> {position, total} | null`
returns the 1-based rank of `id` among all currently Pending records
ordered by `queuedAt` ascending together with the Pending total, and
`null` when the task is not Pending (Active/terminal/unknown). The rank
is computed operationally: sort the pending entries by `queuedAt` and
locate `id`. -/
def peekPosition (q : QueueState) (taskId : String) : Option (Nat × Nat) :=
  match getJob q taskId with
  | none => none
  | some j =>
    if isPendingState j.state then
      let sorted := (pendingJobs q).insertionSort tsLe
      some (sorted.findIdx (fun kv => kv.1 = taskId) + 1, (pendingJobs q).length)
    else none

/-- Modelled from the spec: the status route (`routes/status.ts`) is not
under `src/`. Per the spec (§4.2, §7) both a Builder resolving with
`success: false` and a caught Builder exception surface to pollers as the
Failed state with the recorded error message: a terminal record whose
stored result has `success = false` is reported as Failed. -/
def reportedStatus (q : QueueState) (taskId : String) : JobStatusView :=
  let v := getJobStatus q taskId
  match v.status, v.result with
  | .completed, some r =>
    if r.success then v else { v with status := .failed, error := r.error }
  | _, _ => v

/-- A worker-pool configuration + store state: the queue, the multiset of
task ids for which a Builder invocation has been started, and the
concurrency limit `C` (read once at startup, never written). -/
structure WorkerState where
  queue : QueueState
  invocations : List String
  concurrency : Nat
deriving DecidableEq, Repr

/-- Fresh worker system: empty store, no Builder invocations. -/
def initialWorkerState (c : Nat) : WorkerState :=
  { queue := { jobs := [] }, invocations := [], concurrency := c }

/-- How many times the Builder has been invoked for `id`. -/
def startedCount (s : WorkerState) (id : String) : Nat :=
  s.invocations.count id

/-- Modelled from the spec: the BullMQ scheduling loop lives in the
external `bullmq` package, not under `src/`. Per the spec (§4.2, §5) the
events of the queue/worker system are: idempotent enqueue (`addBuildJob`
of `services/queue.ts`), dequeue of an oldest waiting task into `active`
while fewer than `C` tasks are active (FIFO by `queuedAt`, one Builder
invocation recorded per start), last-value-wins progress overwrite, and
terminal completion/failure of an active task. With `attempts: 1`
(`defaultJobOptions`) there is no transition out of a terminal state and
no re-queueing of a started task. -/
inductive WorkerStep : WorkerState → WorkerState → Prop where
  | enqueue (s : WorkerState) (data : BuildJobData) (now : Nat) :
      WorkerStep s
        { queue := (addBuildJob s.queue data now).2
          invocations := s.invocations
          concurrency := s.concurrency }
  | start (s : WorkerState) (id : String) (j : BullJob) :
      getJob s.queue id = some j →
      j.state = .waiting →
      activeCount s.queue < s.concurrency →
      (∀ kv ∈ s.queue.jobs, kv.2.state = .waiting → j.timestamp ≤ kv.2.timestamp) →
      WorkerStep s
        { queue := setJobState s.queue id .active
          invocations := id :: s.invocations
          concurrency := s.concurrency }
  | reportProgress (s : WorkerState) (id : String) (j : BullJob) (p : BuildJobProgress) :
      getJob s.queue id = some j →
      j.state = .active →
      WorkerStep s
        { queue := setJobProgress s.queue id p
          invocations := s.invocations
          concurrency := s.concurrency }
  | complete (s : WorkerState) (id : String) (j : BullJob) (r : BuildJobResult) :
      getJob s.queue id = some j →
      j.state = .active →
      WorkerStep s
        { queue := completeJob s.queue id r
          invocations := s.invocations
          concurrency := s.concurrency }
  | fail (s : WorkerState) (id : String) (j : BullJob) (e : String) :
      getJob s.queue id = some j →
      j.state = .active →
      WorkerStep s
        { queue := failJob s.queue id e
          invocations := s.invocations
          concurrency := s.concurrency }

/-- Reachability along worker steps. -/
inductive Reaches : WorkerState → WorkerState → Prop where
  | refl (s : WorkerState) : Reaches s s
  | tail {s t u : WorkerState} : Reaches s t → WorkerStep t u → Reaches s u

/-- Outcome of one Builder invocation as seen at the worker boundary
(`processBuildJob` in `index.ts`): the builder promise resolves with a
`BuildJobResult`, or it throws/rejects with an error whose message is
`msg`. -/
inductive BuilderOutcome where
  | ok (r : BuildJobResult)
  | exn (msg : String)
deriving DecidableEq, Repr

/-- The result a failing Builder itself resolves with (the builders'
catch branch in `html-builder.ts`: `{ success: false, error: message }`). -/
def builderFailure (msg : String) : BuildJobResult :=
  { success := false, error := some msg }

/-- Cleanup effects the worker performs in the `finally` block of
`processBuildJob` (`index.ts`). -/
inductive CleanupAction where
  | removeTaskUploads (taskId : String) (appName : String)
  | removeFile (path : String)
deriving DecidableEq, Repr

/-- JavaScript `path.join(dir, name)` for the uses in this code base. -/
def pathJoin (dir name : String) : String :=
  dir ++ "/" ++ name

/-- JavaScript `path.dirname` for paths containing a separator:
everything before the last `/`. -/
def dirName (p : String) : String :=
  { data := (((p.data.reverse).dropWhile (fun c => c ≠ '/')).drop 1).reverse }

/-- JavaScript `s.endsWith(suffixStr)`. -/
def strEndsWith (s suffixStr : String) : Bool :=
  decide (suffixStr.data.length ≤ s.data.length ∧
    s.data.drop (s.data.length - suffixStr.data.length) = suffixStr.data)

/-- The `finally` block of `processBuildJob` (`index.ts`): when
`CLEANUP_UPLOADS_ON_COMPLETE` is enabled, call `cleanupTask(taskId,
appName, …)` (modelled from the spec: `services/storage.ts` is not under
`src/`; it deletes the task's uploaded input files), then remove
`filePath` when it is a temporary `…-project.zip` the API placed directly
in the builds directory. -/
def postBuildCleanup (flag : Bool) (taskId appName filePath outputDir : String) :
    List CleanupAction :=
  if flag then
    CleanupAction.removeTaskUploads taskId appName ::
      (if dirName filePath = outputDir ∧ strEndsWith filePath "-project.zip" then
        [CleanupAction.removeFile filePath]
      else [])
  else []

/-- `processBuildJob` of the worker entry (`index.ts`), for a Builder
invocation with outcome `outcome` after `duration` ms: the try branch
returns the builder result with the duration stamped; the catch branch
normalizes a thrown/rejected error into `{ success: false, error:
message, duration }`; the `finally` block runs its cleanup in every
case. -/
def processBuildJob (flag : Bool) (taskId appName filePath outputDir : String)
    (outcome : BuilderOutcome) (duration : Nat) :
    BuildJobResult × List CleanupAction :=
  match outcome with
  | .ok r =>
    ({ r with duration := some duration },
      postBuildCleanup flag taskId appName filePath outputDir)
  | .exn msg =>
    ({ success := false, error := some msg, duration := some duration },
      postBuildCleanup flag taskId appName filePath outputDir)

/-- A directory entry as seen by the sweeper `cleanupOldBuilds`
(`index.ts`): name, `mtimeMs`, whether it is a directory, and whether
`fs.stat` succeeds (a failing entry is skipped by the per-entry catch). -/
structure FsEntry where
  name : String
  mtimeMs : Nat
  isDir : Bool
  statOk : Bool
deriving DecidableEq, Repr

/-- One directory pass of `cleanupOldBuilds` (`index.ts`): for each entry
compute `age = now - mtimeMs` and delete it when `age > retentionMs`;
entries failing `stat`/delete are skipped and the pass continues. Returns
the surviving entries and the number removed. -/
def sweepDir (retentionMs now : Nat) : List FsEntry → List FsEntry × Nat
  | [] => ([], 0)
  | e :: rest =>
    if e.statOk ∧ now - e.mtimeMs > retentionMs then
      ((sweepDir retentionMs now rest).1, (sweepDir retentionMs now rest).2 + 1)
    else
      (e :: (sweepDir retentionMs now rest).1, (sweepDir retentionMs now rest).2)

/-- The filesystem locations swept by `cleanupOldBuilds` (`index.ts`):
the builds directory and the uploads directory. -/
structure SweepTargets where
  builds : List FsEntry
  uploads : List FsEntry
deriving DecidableEq, Repr

/-- `cleanupOldBuilds` of the worker entry (`index.ts`): sweep
`BUILDS_DIR` then `UPLOADS_DIR` purely by entry age against the retention
window; the store of task records is not consulted. Returns the surviving
entries plus the removed-per-target counters. -/
def cleanupOldBuilds (retentionMs now : Nat) (t : SweepTargets) :
    SweepTargets × Nat × Nat :=
  let b := sweepDir retentionMs now t.builds
  let u := sweepDir retentionMs now t.uploads
  ({ builds := b.1, uploads := u.1 }, b.2, u.2)

/-- `FILE_RETENTION_HOURS` converted to milliseconds
(`retentionMs = FILE_RETENTION_HOURS * 60 * 60 * 1000` in `index.ts`). -/
def retentionMsOfHours (hours : Nat) : Nat :=
  hours * 60 * 60 * 1000

/-- The persisted artifact name chosen by the builders
(`html-builder.ts`): `` `${appName}--${taskId}.apk` `` when a task id is
supplied, else `` `${appName}.apk` ``. -/
def apkFileName (appName : String) (taskId : Option String) : String :=
  match taskId with
  | some t => appName ++ "--" ++ t ++ ".apk"
  | none => appName ++ ".apk"

/-- The artifact destination `path.join(outputDir, apkFileName)`
(`html-builder.ts`). -/
def apkDest (outputDir appName : String) (taskId : Option String) : String :=
  pathJoin outputDir (apkFileName appName taskId)

/-- The `status` discriminator of one `/api/build/:taskId/status`
response as branched on by the frontend poll loop
(`useBuildStore.ts`): `completed`, `failed`, `pending`, or the final
`else` branch (an active build). -/
inductive RespStatus where
  | completed
  | failed
  | pending
  | building
deriving DecidableEq, Repr

/-- One status response as consumed by `pollBuildStatus`
(`useBuildStore.ts`): the discriminator and `data.progress?.percent`. -/
structure StatusResp where
  status : RespStatus
  percent : Option Nat
deriving DecidableEq, Repr

/-- The progress update of one iteration of `pollBuildStatus`
(`useBuildStore.ts`): `completed` sets 100; `failed` leaves the progress
field untouched; `pending` sets the fixed queued value 5; the active
branch applies the ratchet `max(currentProgress, serverProgress)` and
then clamps up to the 10% floor. -/
def pollStep (progress : Nat) (r : StatusResp) : Nat :=
  match r.status with
  | .completed => 100
  | .failed => progress
  | .pending => 5
  | .building =>
    let serverProgress := r.percent.getD 0
    let next := Nat.max progress serverProgress
    if next < 10 then 10 else next

/-- The successive values of the store's `progress` field over a poll
run: one value per response, stopping after a terminal response (the loop
returns on `completed`/`failed`). -/
def pollTrace (progress : Nat) : List StatusResp → List Nat
  | [] => []
  | r :: rest =>
    let p := pollStep progress r
    match r.status with
    | .completed => [p]
    | .failed => [p]
    | _ => p :: pollTrace p rest

/-- Lifecycle rank of a response status: queued before active before
terminal. A BullMQ job without retries (`attempts: 1`) only ever moves
forward through these phases. -/
def respRank : RespStatus → Nat
  | .pending => 0
  | .building => 1
  | .completed => 2
  | .failed => 2

/-- The inductive invariant of the queue/worker system under concurrency
limit `c`: unique job ids in the store, the configured concurrency is
never rewritten, at most `c` jobs are active, and per task id the Builder
has been invoked at most once — with zero invocations while the job is
still waiting or absent. -/
def PoolInv (c : Nat) (s : WorkerState) : Prop :=
  (s.queue.jobs.map Prod.fst).Nodup ∧
  s.concurrency = c ∧
  activeCount s.queue ≤ c ∧
  ∀ id : String,
    startedCount s id ≤ 1 ∧
    (∀ j, getJob s.queue id = some j → j.state = .waiting → startedCount s id = 0) ∧
    (getJob s.queue id = none → startedCount s id = 0)

/-- A concrete `BuildJobData` used to instantiate the verified properties
on explicit inputs. -/
def sampleJobData (id : String) : BuildJobData :=
  { taskId := id
    type := .html
    filePath := "uploads/" ++ id ++ "/app.html"
    appName := "MyApp"
    outputDir := "builds"
    createdAt := "2026-01-01T00:00:00Z" }

/-- A concrete store holding one active job `t1` (timestamp 0) and one
waiting job `t2` (timestamp 1). -/
def sampleQueue : QueueState :=
  { jobs :=
      [("t1", { data := sampleJobData "t1", state := .active, timestamp := 0 }),
        ("t2", { data := sampleJobData "t2", state := .waiting, timestamp := 1 })] }

/-- The worker system after enqueueing `t1` into a fresh store with
concurrency 2. -/
def sampleState1 : WorkerState :=
  { queue := { jobs :=
      [("t1", { data := sampleJobData "t1", state := .waiting, timestamp := 0 })] }
    invocations := []
    concurrency := 2 }

/-- The worker system after additionally dequeueing `t1` into the active
state (one Builder invocation recorded). -/
def sampleState2 : WorkerState :=
  { queue := { jobs :=
      [("t1", { data := sampleJobData "t1", state := .active, timestamp := 0 })] }
    invocations := ["t1"]
    concurrency := 2 }

theorem find?_map_update (l : List (String × BullJob)) (id id0 : String)
    (f : BullJob → BullJob) :
    (l.map (fun kv => if kv.1 = id then (kv.1, f kv.2) else kv)).find?
        (fun kv => kv.1 = id0) =
      (l.find? (fun kv => kv.1 = id0)).map
        (fun kv => if kv.1 = id then (kv.1, f kv.2) else kv) := by
  induction l with
  | nil => rfl
  | cons a rest ih =>
    obtain ⟨k, v⟩ := a
    by_cases h0 : k = id0
    · subst h0
      by_cases hid : k = id
      · subst hid
        rw [List.map_cons, if_pos rfl]
        rw [List.find?_cons_of_pos _ (by simp), List.find?_cons_of_pos _ (by simp)]
        simp
      · rw [List.map_cons, if_neg hid]
        rw [List.find?_cons_of_pos _ (by simp), List.find?_cons_of_pos _ (by simp)]
        simp [hid]
    · by_cases hid : k = id
      · subst hid
        rw [List.map_cons, if_pos rfl]
        rw [List.find?_cons_of_neg _ (by simp [h0]), List.find?_cons_of_neg _ (by simp [h0])]
        exact ih
      · rw [List.map_cons, if_neg hid]
        rw [List.find?_cons_of_neg _ (by simp [h0]), List.find?_cons_of_neg _ (by simp [h0])]
        exact ih

theorem jobs_setJob (q : QueueState) (id : String) (f : BullJob → BullJob) :
    (setJob q id f).jobs = q.jobs.map (fun kv => if kv.1 = id then (kv.1, f kv.2) else kv) :=
  rfl

theorem getJob_setJob (q : QueueState) (id id0 : String) (f : BullJob → BullJob) :
    getJob (setJob q id f) id0 =
      (q.jobs.find? (fun kv => kv.1 = id0)).map
        (fun kv => if kv.1 = id then f kv.2 else kv.2) := by
  unfold getJob
  rw [jobs_setJob, find?_map_update]
  cases q.jobs.find? (fun kv => kv.1 = id0) with
  | none => rfl
  | some kv => by_cases h : kv.1 = id <;> simp [h]

theorem getJob_setJob_self (q : QueueState) (id : String) (f : BullJob → BullJob)
    (j : BullJob) (h : getJob q id = some j) :
    getJob (setJob q id f) id = some (f j) := by
  unfold getJob at h
  rw [getJob_setJob]
  cases hf : q.jobs.find? (fun kv => kv.1 = id) with
  | none => rw [hf] at h; exact absurd h (by simp)
  | some kv =>
    have hkey : kv.1 = id := by simpa using List.find?_some hf
    rw [hf] at h
    simp only [Option.map_some'] at h ⊢
    rw [if_pos hkey]
    injection h with h2
    rw [h2]

theorem getJob_setJob_ne (q : QueueState) (id id0 : String) (f : BullJob → BullJob)
    (h : id0 ≠ id) :
    getJob (setJob q id f) id0 = getJob q id0 := by
  rw [getJob_setJob]
  unfold getJob
  cases hf : q.jobs.find? (fun kv => kv.1 = id0) with
  | none => rfl
  | some kv =>
    have hkey : kv.1 = id0 := by simpa using List.find?_some hf
    simp [hkey, h]

theorem getJob_setJob_none_iff (q : QueueState) (id id0 : String) (f : BullJob → BullJob) :
    getJob (setJob q id f) id0 = none ↔ getJob q id0 = none := by
  rw [getJob_setJob]
  unfold getJob
  cases q.jobs.find? (fun kv => kv.1 = id0) <;> simp

theorem keys_setJob (q : QueueState) (id : String) (f : BullJob → BullJob) :
    (setJob q id f).jobs.map Prod.fst = q.jobs.map Prod.fst := by
  rw [jobs_setJob, List.map_map]
  apply List.map_congr_left
  intro kv _
  by_cases h : kv.1 = id <;> simp [h]

theorem countP_active_update (l : List (String × BullJob)) (id : String)
    (f : BullJob → BullJob) (kv0 : String × BullJob)
    (hnd : (l.map Prod.fst).Nodup)
    (hf : l.find? (fun kv => kv.1 = id) = some kv0) :
    (l.map (fun kv => if kv.1 = id then (kv.1, f kv.2) else kv)).countP
        (fun kv => kv.2.state = .active) +
      (if kv0.2.state = .active then 1 else 0) =
      l.countP (fun kv => kv.2.state = .active) +
        (if (f kv0.2).state = .active then 1 else 0) := by
  induction l with
  | nil => simp at hf
  | cons a rest ih =>
    obtain ⟨k, v⟩ := a
    rw [List.map_cons, List.nodup_cons] at hnd
    by_cases hid : k = id
    · subst hid
      rw [List.find?_cons_of_pos _ (by simp)] at hf
      injection hf with hf
      subst hf
      have hrest : rest.map (fun kv => if kv.1 = k then (kv.1, f kv.2) else kv) = rest := by
        have hmem : ∀ kv ∈ rest, (if kv.1 = k then (kv.1, f kv.2) else kv) = kv := by
          intro kv hkv
          have : kv.1 ≠ k := by
            intro hkk
            exact hnd.1 (List.mem_map.mpr ⟨kv, hkv, hkk⟩)
          simp [this]
        calc rest.map (fun kv => if kv.1 = k then (kv.1, f kv.2) else kv)
            = rest.map id := List.map_congr_left hmem
          _ = rest := List.map_id rest
      rw [List.map_cons, if_pos rfl, hrest]
      simp only [List.countP_cons]
      split_ifs <;> simp_all
    · rw [List.find?_cons_of_neg _ (by simp [hid])] at hf
      have ihr := ih hnd.2 hf
      rw [List.map_cons, if_neg hid]
      simp only [List.countP_cons]
      split_ifs at ihr ⊢ <;> omega

theorem activeCount_setJob (q : QueueState) (id : String) (f : BullJob → BullJob)
    (j : BullJob) (hnd : (q.jobs.map Prod.fst).Nodup) (h : getJob q id = some j) :
    activeCount (setJob q id f) + (if j.state = .active then 1 else 0) =
      activeCount q + (if (f j).state = .active then 1 else 0) := by
  unfold getJob at h
  cases hf : q.jobs.find? (fun kv => kv.1 = id) with
  | none => rw [hf] at h; simp at h
  | some kv0 =>
    rw [hf] at h
    simp only [Option.map_some'] at h
    injection h with h2
    unfold activeCount
    rw [jobs_setJob]
    have hcount := countP_active_update q.jobs id f kv0 hnd hf
    rw [h2] at hcount
    exact hcount

theorem getJob_append_self (q : QueueState) (id : String) (j : BullJob)
    (h : getJob q id = none) :
    getJob { jobs := q.jobs ++ [(id, j)] } id = some j := by
  unfold getJob at h ⊢
  have hf : q.jobs.find? (fun kv => kv.1 = id) = none := by
    cases hx : q.jobs.find? (fun kv => kv.1 = id) with
    | none => rfl
    | some kv => rw [hx] at h; simp at h
  rw [List.find?_append, hf]
  simp [List.find?_cons]

theorem getJob_append_ne (q : QueueState) (id0 id : String) (j : BullJob)
    (h : id0 ≠ id) :
    getJob { jobs := q.jobs ++ [(id, j)] } id0 = getJob q id0 := by
  unfold getJob
  rw [List.find?_append]
  cases hx : q.jobs.find? (fun kv => kv.1 = id0) with
  | none => simp [List.find?_cons, Ne.symm h]
  | some kv => simp

theorem activeCount_append_waiting (q : QueueState) (id : String) (j : BullJob)
    (hw : j.state = .waiting) :
    activeCount { jobs := q.jobs ++ [(id, j)] } = activeCount q := by
  unfold activeCount
  rw [List.countP_append]
  simp [List.countP_cons, hw]

theorem keys_append_nodup (q : QueueState) (id : String) (j : BullJob)
    (hnd : (q.jobs.map Prod.fst).Nodup) (h : getJob q id = none) :
    (({ jobs := q.jobs ++ [(id, j)] } : QueueState).jobs.map Prod.fst).Nodup := by
  have hf : q.jobs.find? (fun kv => kv.1 = id) = none := by
    unfold getJob at h
    cases hx : q.jobs.find? (fun kv => kv.1 = id) with
    | none => rfl
    | some kv => rw [hx] at h; simp at h
  have hnotmem : id ∉ q.jobs.map Prod.fst := by
    intro hmem
    obtain ⟨kv, hkv, hkey⟩ := List.mem_map.mp hmem
    have := List.find?_eq_none.mp hf kv hkv
    simp [hkey] at this
  rw [show ({ jobs := q.jobs ++ [(id, j)] } : QueueState).jobs = q.jobs ++ [(id, j)] from rfl]
  rw [List.map_append]
  simp [List.nodup_append, hnd, hnotmem]

theorem poolInv_update_active (c : Nat) (s : WorkerState) (id : String) (j : BullJob)
    (f : BullJob → BullJob) (hinv : PoolInv c s) (hj : getJob s.queue id = some j)
    (ha : j.state = .active) (hfw : (f j).state ≠ .waiting) :
    PoolInv c { queue := setJob s.queue id f, invocations := s.invocations
                concurrency := s.concurrency } := by
  obtain ⟨hnd, hcc, hac, hids⟩ := hinv
  refine ⟨?_, hcc, ?_, ?_⟩
  · show ((setJob s.queue id f).jobs.map Prod.fst).Nodup
    rw [keys_setJob]
    exact hnd
  · show activeCount (setJob s.queue id f) ≤ c
    have heq := activeCount_setJob s.queue id f j hnd hj
    rw [ha] at heq
    simp only [if_pos rfl] at heq
    split_ifs at heq <;> omega
  · intro id0
    refine ⟨(hids id0).1, ?_, ?_⟩
    · intro j2 hj2 hw2
      replace hj2 : getJob (setJob s.queue id f) id0 = some j2 := hj2
      by_cases hid : id0 = id
      · subst hid
        rw [getJob_setJob_self s.queue id0 f j hj] at hj2
        injection hj2 with h2
        rw [← h2] at hw2
        exact absurd hw2 hfw
      · rw [getJob_setJob_ne s.queue id id0 f hid] at hj2
        exact (hids id0).2.1 j2 hj2 hw2
    · intro hnone
      replace hnone : getJob (setJob s.queue id f) id0 = none := hnone
      rw [getJob_setJob_none_iff] at hnone
      exact (hids id0).2.2 hnone

theorem poolInv_step (c : Nat) {s t : WorkerState}
    (hinv : PoolInv c s) (hstep : WorkerStep s t) : PoolInv c t := by
  cases hstep with
  | enqueue data now =>
    obtain ⟨hnd, hcc, hac, hids⟩ := hinv
    cases hq : getJob s.queue data.taskId with
    | some j =>
      have h2 : (addBuildJob s.queue data now).2 = s.queue := by
        unfold addBuildJob queueAdd
        rw [hq]
      rw [h2]
      exact ⟨hnd, hcc, hac, hids⟩
    | none =>
      have h2 : (addBuildJob s.queue data now).2 =
          { jobs := s.queue.jobs ++
            [(data.taskId, { data := data, state := .waiting, timestamp := now })] } := by
        unfold addBuildJob queueAdd
        rw [hq]
      rw [h2]
      refine ⟨?_, hcc, ?_, ?_⟩
      · exact keys_append_nodup s.queue data.taskId _ hnd hq
      · show activeCount { jobs := s.queue.jobs ++
            [(data.taskId, { data := data, state := .waiting, timestamp := now })] } ≤ c
        rw [activeCount_append_waiting s.queue data.taskId _ rfl]
        exact hac
      · intro id0
        by_cases hid : id0 = data.taskId
        · subst hid
          have hz : startedCount s data.taskId = 0 := (hids data.taskId).2.2 hq
          exact ⟨hz.le.trans (by omega), fun _ _ _ => hz, fun _ => hz⟩
        · have hjq := getJob_append_ne s.queue id0 data.taskId
            { data := data, state := .waiting, timestamp := now } hid
          refine ⟨(hids id0).1, ?_, ?_⟩
          · intro j2 hj2 hw2
            replace hj2 : getJob { jobs := s.queue.jobs ++
                [(data.taskId, { data := data, state := .waiting, timestamp := now })] }
                id0 = some j2 := hj2
            rw [hjq] at hj2
            exact (hids id0).2.1 j2 hj2 hw2
          · intro hnone
            replace hnone : getJob { jobs := s.queue.jobs ++
                [(data.taskId, { data := data, state := .waiting, timestamp := now })] }
                id0 = none := hnone
            rw [hjq] at hnone
            exact (hids id0).2.2 hnone
  | start id j hj hw hlt hfifo =>
    obtain ⟨hnd, hcc, hac, hids⟩ := hinv
    refine ⟨?_, hcc, ?_, ?_⟩
    · show ((setJobState s.queue id .active).jobs.map Prod.fst).Nodup
      unfold setJobState
      rw [keys_setJob]
      exact hnd
    · show activeCount (setJobState s.queue id .active) ≤ c
      have heq := activeCount_setJob s.queue id (fun x => { x with state := .active }) j hnd hj
      rw [hw] at heq
      simp at heq
      unfold setJobState
      omega
    · intro id0
      by_cases hid : id0 = id
      · subst hid
        have hz : startedCount s id0 = 0 := (hids id0).2.1 j hj hw
        unfold startedCount at hz
        refine ⟨?_, ?_, ?_⟩
        · show (id0 :: s.invocations).count id0 ≤ 1
          simp [List.count_cons, hz]
        · intro j2 hj2 hw2
          replace hj2 : getJob (setJobState s.queue id0 .active) id0 = some j2 := hj2
          unfold setJobState at hj2
          rw [getJob_setJob_self s.queue id0 _ j hj] at hj2
          injection hj2 with h2
          rw [← h2] at hw2
          simp at hw2
        · intro hnone
          replace hnone : getJob (setJobState s.queue id0 .active) id0 = none := hnone
          unfold setJobState at hnone
          rw [getJob_setJob_self s.queue id0 _ j hj] at hnone
          simp at hnone
      · have h1 := (hids id0).1
        unfold startedCount at h1
        refine ⟨?_, ?_, ?_⟩
        · show (id :: s.invocations).count id0 ≤ 1
          simpa [List.count_cons, hid] using h1
        · intro j2 hj2 hw2
          replace hj2 : getJob (setJobState s.queue id .active) id0 = some j2 := hj2
          unfold setJobState at hj2
          rw [getJob_setJob_ne s.queue id id0 _ hid] at hj2
          have hz := (hids id0).2.1 j2 hj2 hw2
          unfold startedCount at hz
          show (id :: s.invocations).count id0 = 0
          simpa [List.count_cons, hid] using hz
        · intro hnone
          replace hnone : getJob (setJobState s.queue id .active) id0 = none := hnone
          unfold setJobState at hnone
          rw [getJob_setJob_ne s.queue id id0 _ hid] at hnone
          have hz := (hids id0).2.2 hnone
          unfold startedCount at hz
          show (id :: s.invocations).count id0 = 0
          simpa [List.count_cons, hid] using hz
  | reportProgress id j p hj ha =>
    exact poolInv_update_active c s id j (fun x => { x with progress := some p })
      hinv hj ha (by simp [ha])
  | complete id j r hj ha =>
    exact poolInv_update_active c s id j
      (fun x => { x with state := .completed, returnvalue := some r })
      hinv hj ha (by simp)
  | fail id j e hj ha =>
    exact poolInv_update_active c s id j
      (fun x => { x with state := .failed, failedReason := some e })
      hinv hj ha (by simp)

theorem poolInv_initial (c : Nat) : PoolInv c (initialWorkerState c) := by
  refine ⟨by simp [initialWorkerState], rfl,
    by simp [initialWorkerState, activeCount], ?_⟩
  intro id
  refine ⟨by simp [startedCount, initialWorkerState], ?_, ?_⟩
  · intro j hj hw
    simp [initialWorkerState, getJob] at hj
  · intro hnone
    simp [startedCount, initialWorkerState]

theorem poolInv_reachable (c : Nat) {s : WorkerState}
    (h : Reaches (initialWorkerState c) s) : PoolInv c s := by
  induction h with
  | refl => exact poolInv_initial c
  | tail hr hstep ih => exact poolInv_step c ih hstep

theorem sample_reaches : Reaches (initialWorkerState 2) sampleState2 := by
  have h1 : WorkerStep (initialWorkerState 2) sampleState1 := by
    have hs := WorkerStep.enqueue (initialWorkerState 2) (sampleJobData "t1") 0
    have heq : ({ queue := (addBuildJob (initialWorkerState 2).queue (sampleJobData "t1") 0).2,
                  invocations := (initialWorkerState 2).invocations,
                  concurrency := (initialWorkerState 2).concurrency } : WorkerState) =
        sampleState1 := by
      decide
    rw [heq] at hs
    exact hs
  have h2 : WorkerStep sampleState1 sampleState2 := by
    have hs := WorkerStep.start sampleState1 "t1"
      { data := sampleJobData "t1", state := .waiting, timestamp := 0 }
      (by decide) (by decide) (by decide) (by decide)
    have heq : ({ queue := setJobState sampleState1.queue "t1" .active,
                  invocations := "t1" :: sampleState1.invocations,
                  concurrency := sampleState1.concurrency } : WorkerState) =
        sampleState2 := by
      decide
    rw [heq] at hs
    exact hs
  exact Reaches.tail (Reaches.tail (Reaches.refl _) h1) h2

/-- C1: enqueue is idempotent on the task id. A second `addBuildJob` with
the same `taskId` returns the already-stored record unchanged and leaves
the store unchanged (no second record); and along any run of the
queue/worker system the Builder is executed at most once per task id. -/
theorem c1_enqueue_idempotent :
    (∀ (q : QueueState) (data : BuildJobData) (now now2 : Nat),
      addBuildJob (addBuildJob q data now).2 data now2 =
        ((addBuildJob q data now).1, (addBuildJob q data now).2)) ∧
    (∀ (c : Nat) (s : WorkerState) (id : String),
      Reaches (initialWorkerState c) s → startedCount s id ≤ 1) := by
  constructor
  · intro q data now now2
    unfold addBuildJob queueAdd
    cases hq : getJob q data.taskId with
    | some j => simp [hq]
    | none =>
      simp only [hq]
      have hself := getJob_append_self q data.taskId
        { data := data, state := .waiting, timestamp := now } hq
      simp [hself]
  · intro c s id hr
    exact ((poolInv_reachable c hr).2.2.2 id).1

/-- Witness for C1 at a concrete store, spec and run. -/
theorem c1_enqueue_idempotent_witness :
    (addBuildJob (addBuildJob { jobs := [] } (sampleJobData "t1") 0).2
        (sampleJobData "t1") 7 =
      ((addBuildJob { jobs := [] } (sampleJobData "t1") 0).1,
        (addBuildJob { jobs := [] } (sampleJobData "t1") 0).2)) ∧
    startedCount sampleState2 "t1" ≤ 1 :=
  ⟨c1_enqueue_idempotent.1 { jobs := [] } (sampleJobData "t1") 0 7,
    c1_enqueue_idempotent.2 2 sampleState2 "t1" sample_reaches⟩

/-- C4: `removeJob` on an Active task returns `false` and changes
nothing; on any non-Active task (waiting/delayed/prioritized, i.e.
Pending, or Completed/Failed) it deletes the record and returns `true`. -/
theorem c4_remove_active_guard (q : QueueState) (id : String) (j : BullJob)
    (h : getJob q id = some j) :
    (j.state = .active → removeJob q id = (false, q)) ∧
    (j.state ≠ .active →
      (removeJob q id).1 = true ∧ getJob (removeJob q id).2 id = none) := by
  constructor
  · intro ha
    simp [removeJob, h, ha]
  · intro hna
    simp only [removeJob, h, if_neg hna]
    refine ⟨trivial, ?_⟩
    unfold getJob
    have hnone : (q.jobs.filter (fun kv => kv.1 ≠ id)).find? (fun kv => kv.1 = id) = none := by
      rw [List.find?_eq_none]
      intro kv hkv
      have := (List.mem_filter.mp hkv).2
      simpa using this
    rw [hnone]
    rfl

/-- Witness for C4 at a concrete store: the Active job `t1` cannot be
removed, the Pending job `t2` is removed. -/
theorem c4_remove_active_guard_witness :
    removeJob sampleQueue "t1" = (false, sampleQueue) ∧
    ((removeJob sampleQueue "t2").1 = true ∧
      getJob (removeJob sampleQueue "t2").2 "t2" = none) :=
  ⟨(c4_remove_active_guard sampleQueue "t1"
      { data := sampleJobData "t1", state := .active, timestamp := 0 }
      (by decide)).1 rfl,
    (c4_remove_active_guard sampleQueue "t2"
      { data := sampleJobData "t2", state := .waiting, timestamp := 1 }
      (by decide)).2 (by decide)⟩

/-- C5: the concurrency read at startup defaults to 2
(`WORKER_CONCURRENCY` unset), and along any run of the system with limit
`c` the number of Active jobs never exceeds `c` while the configured
limit itself never changes. -/
theorem c5_active_bounded_by_concurrency :
    workerConcurrencyOf none = some 2 ∧
    (∀ (c : Nat) (s : WorkerState), Reaches (initialWorkerState c) s →
      activeCount s.queue ≤ c ∧ s.concurrency = c) := by
  constructor
  · decide
  · intro c s hr
    have hinv := poolInv_reachable c hr
    exact ⟨hinv.2.2.1, hinv.2.1⟩

/-- Witness for C5 on a concrete run with `c = 2`. -/
theorem c5_active_bounded_by_concurrency_witness :
    workerConcurrencyOf none = some 2 ∧
    (activeCount sampleState2.queue ≤ 2 ∧ sampleState2.concurrency = 2) :=
  ⟨c5_active_bounded_by_concurrency.1,
    c5_active_bounded_by_concurrency.2 2 sampleState2 sample_reaches⟩

theorem failed_job_unchanged {s t : WorkerState} (id : String) (j : BullJob)
    (hstep : WorkerStep s t) (hj : getJob s.queue id = some j)
    (hf : j.state = .failed) : getJob t.queue id = some j := by
  cases hstep with
  | enqueue data now =>
    show getJob (addBuildJob s.queue data now).2 id = some j
    unfold addBuildJob queueAdd
    cases hq : getJob s.queue data.taskId with
    | some j2 => simpa [hq] using hj
    | none =>
      simp only [hq]
      by_cases hid : id = data.taskId
      · rw [hid] at hj
        rw [hj] at hq
        exact absurd hq (by simp)
      · rw [getJob_append_ne s.queue id data.taskId _ hid]
        exact hj
  | start id2 j2 hj2 hw2 hlt hfifo =>
    show getJob (setJobState s.queue id2 .active) id = some j
    by_cases hid : id = id2
    · rw [hid] at hj
      rw [hj] at hj2
      injection hj2 with hj2
      rw [← hj2] at hw2
      rw [hf] at hw2
      exact absurd hw2 (by simp)
    · unfold setJobState
      rw [getJob_setJob_ne s.queue id2 id _ hid]
      exact hj
  | reportProgress id2 j2 p hj2 ha2 =>
    show getJob (setJobProgress s.queue id2 p) id = some j
    by_cases hid : id = id2
    · rw [hid] at hj
      rw [hj] at hj2
      injection hj2 with hj2
      rw [← hj2] at ha2
      rw [hf] at ha2
      exact absurd ha2 (by simp)
    · unfold setJobProgress
      rw [getJob_setJob_ne s.queue id2 id _ hid]
      exact hj
  | complete id2 j2 r hj2 ha2 =>
    show getJob (completeJob s.queue id2 r) id = some j
    by_cases hid : id = id2
    · rw [hid] at hj
      rw [hj] at hj2
      injection hj2 with hj2
      rw [← hj2] at ha2
      rw [hf] at ha2
      exact absurd ha2 (by simp)
    · unfold completeJob
      rw [getJob_setJob_ne s.queue id2 id _ hid]
      exact hj
  | fail id2 j2 e hj2 ha2 =>
    show getJob (failJob s.queue id2 e) id = some j
    by_cases hid : id = id2
    · rw [hid] at hj
      rw [hj] at hj2
      injection hj2 with hj2
      rw [← hj2] at ha2
      rw [hf] at ha2
      exact absurd ha2 (by simp)
    · unfold failJob
      rw [getJob_setJob_ne s.queue id2 id _ hid]
      exact hj

/-- C9: no automatic retry. The queue is created with `attempts := 1`; in
any run the Builder is invoked at most once per task id; and no step of
the system ever alters a Failed record — a failed build is never
re-queued or re-executed. -/
theorem c9_exactly_one_attempt :
    defaultJobOptions.attempts = 1 ∧
    (∀ (c : Nat) (s : WorkerState) (id : String),
      Reaches (initialWorkerState c) s → startedCount s id ≤ 1) ∧
    (∀ (s t : WorkerState) (id : String) (j : BullJob),
      WorkerStep s t → getJob s.queue id = some j → j.state = .failed →
        getJob t.queue id = some j) := by
  refine ⟨rfl, ?_, ?_⟩
  · intro c s id hr
    exact ((poolInv_reachable c hr).2.2.2 id).1
  · intro s t id j hstep hj hf
    exact failed_job_unchanged id j hstep hj hf

/-- Witness for C9 on a concrete run and a concrete step from a store
holding a Failed job. -/
theorem c9_exactly_one_attempt_witness :
    defaultJobOptions.attempts = 1 ∧
    startedCount sampleState2 "t1" ≤ 1 ∧
    getJob
      (setJobProgress
        { jobs :=
            [("t9", { data := sampleJobData "t9", state := .failed, timestamp := 0 }),
              ("t8", { data := sampleJobData "t8", state := .active, timestamp := 1 })] }
        "t8" { message := "m", percent := 50 }) "t9" =
      some { data := sampleJobData "t9", state := .failed, timestamp := 0 } :=
  ⟨c9_exactly_one_attempt.1,
    c9_exactly_one_attempt.2.1 2 sampleState2 "t1" sample_reaches,
    c9_exactly_one_attempt.2.2
      { queue := { jobs :=
          [("t9", { data := sampleJobData "t9", state := .failed, timestamp := 0 }),
            ("t8", { data := sampleJobData "t8", state := .active, timestamp := 1 })] }
        invocations := ["t8"], concurrency := 2 }
      { queue := setJobProgress
          { jobs :=
              [("t9", { data := sampleJobData "t9", state := .failed, timestamp := 0 }),
                ("t8", { data := sampleJobData "t8", state := .active, timestamp := 1 })] }
          "t8" { message := "m", percent := 50 }
        invocations := ["t8"], concurrency := 2 }
      "t9" { data := sampleJobData "t9", state := .failed, timestamp := 0 }
      (WorkerStep.reportProgress
        { queue := { jobs :=
            [("t9", { data := sampleJobData "t9", state := .failed, timestamp := 0 }),
              ("t8", { data := sampleJobData "t8", state := .active, timestamp := 1 })] }
          invocations := ["t8"], concurrency := 2 }
        "t8" { data := sampleJobData "t8", state := .active, timestamp := 1 }
        { message := "m", percent := 50 } (by decide) rfl)
      (by decide) rfl⟩

/-- C3 (amended): a Builder that throws/rejects with message `e` is
caught at the worker boundary and normalized into exactly the result a
Builder failure produces (`success = false`, the thrown message recorded
as the error, duration stamped); when the worker finishes the active job
with that result, it leaves the Active state (freeing the slot: the
active count drops by one), and the status surface reports the task as
Failed with that same message — which is non-empty exactly when the
thrown error's message is. -/
theorem c3_exception_normalized (q : QueueState) (id : String) (j : BullJob)
    (e : String) (d : Nat) (flag : Bool) (tid an fp od : String)
    (hnd : (q.jobs.map Prod.fst).Nodup)
    (hj : getJob q id = some j) (ha : j.state = .active) :
    (processBuildJob flag tid an fp od (.exn e) d).1 =
      (processBuildJob flag tid an fp od (.ok (builderFailure e)) d).1 ∧
    (processBuildJob flag tid an fp od (.exn e) d).1.success = false ∧
    (processBuildJob flag tid an fp od (.exn e) d).1.error = some e ∧
    (reportedStatus
        (completeJob q id (processBuildJob flag tid an fp od (.exn e) d).1) id).status =
      .failed ∧
    (reportedStatus
        (completeJob q id (processBuildJob flag tid an fp od (.exn e) d).1) id).error =
      some e ∧
    (getJob (completeJob q id (processBuildJob flag tid an fp od (.exn e) d).1) id).map
      BullJob.state = some .completed ∧
    activeCount (completeJob q id (processBuildJob flag tid an fp od (.exn e) d).1) + 1 =
      activeCount q := by
  have hres : (processBuildJob flag tid an fp od (.exn e) d).1 =
      { success := false, error := some e, duration := some d } := rfl
  have hget : getJob (completeJob q id (processBuildJob flag tid an fp od (.exn e) d).1) id =
      some { j with state := .completed,
                    returnvalue := some (processBuildJob flag tid an fp od (.exn e) d).1 } := by
    unfold completeJob
    exact getJob_setJob_self q id _ j hj
  refine ⟨rfl, rfl, rfl, ?_, ?_, ?_, ?_⟩
  · unfold reportedStatus getJobStatus
    rw [hget]
    simp [hres]
  · unfold reportedStatus getJobStatus
    rw [hget]
    simp [hres]
  · rw [hget]
    rfl
  · have heq := activeCount_setJob q id
      (fun x =>
        { x with
            state := .completed
            returnvalue := some (processBuildJob flag tid an fp od (.exn e) d).1 })
      j hnd hj
    rw [ha] at heq
    simp only [if_pos rfl] at heq
    unfold completeJob
    simp at heq
    omega

/-- C3 counterexample: a Builder that throws an error whose message is
the empty string (`throw new Error("")`) is caught and normalized by the
worker's catch block with `error := ""`: the task does end Failed, but
its recorded error message is the empty string — not non-empty as the
original claim states. -/
theorem c3_empty_error_counterexample :
    (processBuildJob true "t1" "MyApp" "builds/t1-project.zip" "builds"
      (.exn "") 42).1.success = false ∧
    (processBuildJob true "t1" "MyApp" "builds/t1-project.zip" "builds"
      (.exn "") 42).1.error = some "" ∧
    (reportedStatus
        (completeJob sampleQueue "t1"
          (processBuildJob true "t1" "MyApp" "builds/t1-project.zip" "builds"
            (.exn "") 42).1) "t1").status = .failed ∧
    (reportedStatus
        (completeJob sampleQueue "t1"
          (processBuildJob true "t1" "MyApp" "builds/t1-project.zip" "builds"
            (.exn "") 42).1) "t1").error = some "" ∧
    ("" : String).length = 0 :=
  ⟨rfl, rfl, by decide, by decide, rfl⟩

/-- Witness for the amended C3 at a concrete store and exception. -/
theorem c3_exception_normalized_witness :
    (processBuildJob true "t1" "MyApp" "builds/t1-project.zip" "builds" (.exn "boom") 42).1 =
      (processBuildJob true "t1" "MyApp" "builds/t1-project.zip" "builds"
        (.ok (builderFailure "boom")) 42).1 ∧
    (processBuildJob true "t1" "MyApp" "builds/t1-project.zip" "builds"
      (.exn "boom") 42).1.success = false ∧
    (processBuildJob true "t1" "MyApp" "builds/t1-project.zip" "builds"
      (.exn "boom") 42).1.error = some "boom" ∧
    (reportedStatus
        (completeJob sampleQueue "t1"
          (processBuildJob true "t1" "MyApp" "builds/t1-project.zip" "builds"
            (.exn "boom") 42).1) "t1").status = .failed ∧
    (reportedStatus
        (completeJob sampleQueue "t1"
          (processBuildJob true "t1" "MyApp" "builds/t1-project.zip" "builds"
            (.exn "boom") 42).1) "t1").error = some "boom" ∧
    (getJob (completeJob sampleQueue "t1"
        (processBuildJob true "t1" "MyApp" "builds/t1-project.zip" "builds"
          (.exn "boom") 42).1) "t1").map BullJob.state = some .completed ∧
    activeCount (completeJob sampleQueue "t1"
        (processBuildJob true "t1" "MyApp" "builds/t1-project.zip" "builds"
          (.exn "boom") 42).1) + 1 = activeCount sampleQueue :=
  c3_exception_normalized sampleQueue "t1"
    { data := sampleJobData "t1", state := .active, timestamp := 0 }
    "boom" 42 true "t1" "MyApp" "builds/t1-project.zip" "builds"
    (by decide) (by decide) rfl

/-- C10: the `finally` cleanup runs after every Builder outcome alike.
With `CLEANUP_UPLOADS_ON_COMPLETE` at its default (enabled), every
invocation ends by deleting the task's uploads, plus the temporary
`<taskId>-project.zip` when the input file sits directly in the builds
directory with that suffix; a file elsewhere is left to `cleanupTask`
alone; with the flag disabled nothing is deleted. -/
theorem c10_cleanup_every_outcome (outcome : BuilderOutcome) (d : Nat)
    (tid an od fp : String)
    (hdir : dirName fp = od) (hsuffix : strEndsWith fp "-project.zip" = true) :
    cleanupUploadsFlag none = true ∧
    (processBuildJob true tid an fp od outcome d).2 =
      [CleanupAction.removeTaskUploads tid an, CleanupAction.removeFile fp] ∧
    (∀ fp2, dirName fp2 ≠ od →
      (processBuildJob true tid an fp2 od outcome d).2 =
        [CleanupAction.removeTaskUploads tid an]) ∧
    (processBuildJob false tid an fp od outcome d).2 = [] := by
  refine ⟨by decide, ?_, ?_, ?_⟩
  · cases outcome <;> simp [processBuildJob, postBuildCleanup, hdir, hsuffix]
  · intro fp2 h2
    cases outcome <;> simp [processBuildJob, postBuildCleanup, h2]
  · cases outcome <;> simp [processBuildJob, postBuildCleanup]

/-- Witness for C10 with a thrown Builder and the temporary project ZIP
the API places in the builds directory. -/
theorem c10_cleanup_every_outcome_witness :
    cleanupUploadsFlag none = true ∧
    (processBuildJob true "t1" "MyApp" "builds/t1-project.zip" "builds"
        (.exn "boom") 42).2 =
      [CleanupAction.removeTaskUploads "t1" "MyApp",
        CleanupAction.removeFile "builds/t1-project.zip"] ∧
    (∀ fp2, dirName fp2 ≠ "builds" →
      (processBuildJob true "t1" "MyApp" fp2 "builds" (.exn "boom") 42).2 =
        [CleanupAction.removeTaskUploads "t1" "MyApp"]) ∧
    (processBuildJob false "t1" "MyApp" "builds/t1-project.zip" "builds"
      (.exn "boom") 42).2 = [] :=
  c10_cleanup_every_outcome (.exn "boom") 42 "t1" "MyApp" "builds"
    "builds/t1-project.zip" (by decide) (by decide)

theorem sweepDir_subset (retentionMs now : Nat) (l : List FsEntry) :
    ∀ e ∈ (sweepDir retentionMs now l).1, e ∈ l := by
  induction l with
  | nil => intro e he; simp [sweepDir] at he
  | cons a rest ih =>
    intro e he
    unfold sweepDir at he
    by_cases hc : a.statOk = true ∧ now - a.mtimeMs > retentionMs
    · rw [if_pos hc] at he
      exact List.mem_cons_of_mem a (ih e he)
    · rw [if_neg hc] at he
      rcases List.mem_cons.mp he with h | h
      · simp [h]
      · exact List.mem_cons_of_mem a (ih e h)

theorem sweepDir_mem_iff (retentionMs now : Nat) (l : List FsEntry) (e : FsEntry)
    (he : e ∈ l) :
    e ∈ (sweepDir retentionMs now l).1 ↔
      ¬(e.statOk = true ∧ now - e.mtimeMs > retentionMs) := by
  induction l with
  | nil => simp at he
  | cons a rest ih =>
    unfold sweepDir
    by_cases hc : a.statOk = true ∧ now - a.mtimeMs > retentionMs
    · rw [if_pos hc]
      rcases List.mem_cons.mp he with h | h
      · subst h
        constructor
        · intro hmem
          have hr : e ∈ rest := sweepDir_subset retentionMs now rest e hmem
          exact absurd hc ((ih hr).mp hmem)
        · intro hne
          exact absurd hc hne
      · exact ih h
    · rw [if_neg hc]
      rw [show ((a :: (sweepDir retentionMs now rest).1,
          (sweepDir retentionMs now rest).2) : List FsEntry × Nat).1 =
          a :: (sweepDir retentionMs now rest).1 from rfl]
      rw [List.mem_cons]
      rcases List.mem_cons.mp he with h | h
      · subst h
        constructor
        · intro _
          exact fun hcc => hc hcc
        · intro _
          exact Or.inl rfl
      · constructor
        · rintro (h2 | h2)
          · subst h2
            exact fun hcc => hc hcc
          · exact (ih h).mp h2
        · intro hne
          exact Or.inr ((ih h).mpr hne)

/-- C2 counterexample: the sweep deletes an over-age artifact even though
its owning task `t1` (embedded in the file name by the
`<humanName>--<taskId>.<ext>` convention) is still Active. With the
default 2-hour retention window, at `now` = 7200001 ms the artifact of
the Active task `t1` (mtime 0) is removed from the builds directory. -/
theorem c2_sweeper_deletes_active_artifact :
    (getJob sampleQueue "t1").map BullJob.state = some .active ∧
    apkFileName "MyApp" (some "t1") = "MyApp--t1.apk" ∧
    (cleanupOldBuilds (retentionMsOfHours 2) 7200001
        { builds := [{ name := apkFileName "MyApp" (some "t1"), mtimeMs := 0,
                       isDir := false, statOk := true }],
          uploads := [] }).1.builds = [] :=
  ⟨by decide, by decide, by decide⟩

/-- C2 amended: one sweep pass of `cleanupOldBuilds` keeps exactly the
entries that are not over-age (or whose stat fails), in both the builds
and the uploads directory; deletion depends only on the entry's age
against the retention window, never on the owning task's state, so
Active-owned artifacts are not protected. -/
theorem c2_sweep_age_only (retentionMs now : Nat) (t : SweepTargets) (e : FsEntry) :
    (e ∈ t.builds →
      (e ∈ (cleanupOldBuilds retentionMs now t).1.builds ↔
        ¬(e.statOk = true ∧ now - e.mtimeMs > retentionMs))) ∧
    (e ∈ t.uploads →
      (e ∈ (cleanupOldBuilds retentionMs now t).1.uploads ↔
        ¬(e.statOk = true ∧ now - e.mtimeMs > retentionMs))) := by
  constructor
  · intro he
    exact sweepDir_mem_iff retentionMs now t.builds e he
  · intro he
    exact sweepDir_mem_iff retentionMs now t.uploads e he

/-- Witness for the amended C2: an over-age builds entry is deleted, a
fresh uploads entry survives. -/
theorem c2_sweep_age_only_witness :
    (({ name := "MyApp--t1.apk", mtimeMs := 0, isDir := false, statOk := true } : FsEntry) ∈
        (cleanupOldBuilds 7200000 7200001
          { builds := [{ name := "MyApp--t1.apk", mtimeMs := 0, isDir := false,
                         statOk := true }],
            uploads := [{ name := "up.zip", mtimeMs := 7200000, isDir := false,
                          statOk := true }] }).1.builds ↔
      ¬(({ name := "MyApp--t1.apk", mtimeMs := 0, isDir := false, statOk := true } : FsEntry).statOk = true ∧
        7200001 - ({ name := "MyApp--t1.apk", mtimeMs := 0, isDir := false, statOk := true } : FsEntry).mtimeMs > 7200000)) ∧
    (({ name := "up.zip", mtimeMs := 7200000, isDir := false, statOk := true } : FsEntry) ∈
        (cleanupOldBuilds 7200000 7200001
          { builds := [{ name := "MyApp--t1.apk", mtimeMs := 0, isDir := false,
                         statOk := true }],
            uploads := [{ name := "up.zip", mtimeMs := 7200000, isDir := false,
                          statOk := true }] }).1.uploads ↔
      ¬(({ name := "up.zip", mtimeMs := 7200000, isDir := false, statOk := true } : FsEntry).statOk = true ∧
        7200001 - ({ name := "up.zip", mtimeMs := 7200000, isDir := false, statOk := true } : FsEntry).mtimeMs > 7200000)) :=
  ⟨(c2_sweep_age_only 7200000 7200001
      { builds := [{ name := "MyApp--t1.apk", mtimeMs := 0, isDir := false,
                     statOk := true }],
        uploads := [{ name := "up.zip", mtimeMs := 7200000, isDir := false,
                      statOk := true }] }
      { name := "MyApp--t1.apk", mtimeMs := 0, isDir := false, statOk := true }).1
    (by decide),
    (c2_sweep_age_only 7200000 7200001
      { builds := [{ name := "MyApp--t1.apk", mtimeMs := 0, isDir := false,
                     statOk := true }],
        uploads := [{ name := "up.zip", mtimeMs := 7200000, isDir := false,
                      statOk := true }] }
      { name := "up.zip", mtimeMs := 7200000, isDir := false, statOk := true }).2
    (by decide)⟩

/-- C6: the builders embed the task id in the artifact name as
`<appName>--<taskId>.apk`, and two tasks with distinct ids of equal
length (the API mints fixed-length `nanoid(12)` ids) get distinct
artifact destinations in the shared output directory — even with the
same human-chosen app name, and whatever the two app names are. -/
theorem c6_artifact_paths_distinct (dir n1 n2 t1 t2 : String)
    (hlen : t1.length = t2.length) (hne : t1 ≠ t2) :
    apkFileName n1 (some t1) = n1 ++ "--" ++ t1 ++ ".apk" ∧
    apkDest dir n1 (some t1) ≠ apkDest dir n2 (some t2) := by
  refine ⟨rfl, ?_⟩
  intro heq
  apply hne
  have hdata : (dir ++ "/" ++ (n1 ++ "--" ++ t1 ++ ".apk")).data =
      (dir ++ "/" ++ (n2 ++ "--" ++ t2 ++ ".apk")).data := congrArg String.data heq
  simp only [String.data_append, List.append_assoc] at hdata
  have h1 := List.append_cancel_left hdata
  have h2 := List.append_cancel_left h1
  have h3 : (n1.data ++ "--".data) ++ (t1.data ++ ".apk".data) =
      (n2.data ++ "--".data) ++ (t2.data ++ ".apk".data) := by
    simpa [List.append_assoc] using h2
  have hld : t1.data.length = t2.data.length := hlen
  have hlen2 : (t1.data ++ ".apk".data).length = (t2.data ++ ".apk".data).length := by
    simp [List.length_append, hld]
  have hsplit := List.append_inj' h3 hlen2
  have htd : t1.data = t2.data := List.append_cancel_right hsplit.2
  cases t1
  cases t2
  exact congrArg String.mk htd

/-- Witness for C6: same app name, two distinct 12-character ids. -/
theorem c6_artifact_paths_distinct_witness :
    apkFileName "MyApp" (some "aaaabbbbccc1") =
      "MyApp" ++ "--" ++ "aaaabbbbccc1" ++ ".apk" ∧
    apkDest "builds" "MyApp" (some "aaaabbbbccc1") ≠
      apkDest "builds" "MyApp" (some "aaaabbbbccc2") :=
  c6_artifact_paths_distinct "builds" "MyApp" "MyApp" "aaaabbbbccc1" "aaaabbbbccc2"
    (by decide) (by decide)

theorem pollTrace_mono (rs : List StatusResp) : ∀ p : Nat, p ≤ 100 →
    (∀ r ∈ rs, r.percent.getD 0 ≤ 100) →
    List.Pairwise (fun a b => respRank a.status ≤ respRank b.status) rs →
    (p ≤ 5 ∨ ∀ r ∈ rs, r.status ≠ .pending) →
    List.Chain' (· ≤ ·) (p :: pollTrace p rs) ∧
      ∀ x ∈ pollTrace p rs, x ≤ 100 := by
  induction rs with
  | nil =>
    intro p _ _ _ _
    exact ⟨List.chain'_singleton p, by simp [pollTrace]⟩
  | cons r rest ih =>
    intro p hp hperc hrank hpend
    cases hr : r.status with
    | completed =>
      have htr : pollTrace p (r :: rest) = [100] := by
        simp [pollTrace, pollStep, hr]
      rw [htr]
      refine ⟨?_, by simp⟩
      rw [List.chain'_cons]
      exact ⟨hp, List.chain'_singleton 100⟩
    | failed =>
      have htr : pollTrace p (r :: rest) = [p] := by
        simp [pollTrace, pollStep, hr]
      rw [htr]
      refine ⟨?_, by simp; omega⟩
      rw [List.chain'_cons]
      exact ⟨le_refl p, List.chain'_singleton p⟩
    | pending =>
      have h5 : p ≤ 5 := by
        rcases hpend with h | h
        · exact h
        · exact absurd hr (h r (List.mem_cons_self r rest))
      have htr : pollTrace p (r :: rest) = 5 :: pollTrace 5 rest := by
        simp [pollTrace, pollStep, hr]
      rw [htr]
      have hihr := ih 5 (by omega) (fun r2 h2 => hperc r2 (List.mem_cons_of_mem r h2))
        (List.pairwise_cons.mp hrank).2 (Or.inl (by omega))
      constructor
      · rw [List.chain'_cons]
        exact ⟨h5, hihr.1⟩
      · intro x hx
        rcases List.mem_cons.mp hx with h | h
        · omega
        · exact hihr.2 x h
    | building =>
      have hsp : r.percent.getD 0 ≤ 100 := hperc r (List.mem_cons_self r rest)
      have hstep : p ≤ pollStep p r ∧ pollStep p r ≤ 100 := by
        simp only [pollStep, hr]
        have hm1 : p ≤ Nat.max p (r.percent.getD 0) := Nat.le_max_left _ _
        have hm2 : Nat.max p (r.percent.getD 0) ≤ 100 := Nat.max_le.mpr ⟨hp, hsp⟩
        split_ifs <;> omega
      have htr : pollTrace p (r :: rest) = pollStep p r :: pollTrace (pollStep p r) rest := by
        simp [pollTrace, hr]
      rw [htr]
      have hnp : ∀ r2 ∈ rest, r2.status ≠ .pending := by
        intro r2 h2 hp2
        have := (List.pairwise_cons.mp hrank).1 r2 h2
        rw [hr, hp2] at this
        simp [respRank] at this
      have hihr := ih (pollStep p r) hstep.2
        (fun r2 h2 => hperc r2 (List.mem_cons_of_mem r h2))
        (List.pairwise_cons.mp hrank).2 (Or.inr hnp)
      constructor
      · rw [List.chain'_cons]
        exact ⟨hstep.1, hihr.1⟩
      · intro x hx
        rcases List.mem_cons.mp hx with h | h
        · omega
        · exact hihr.2 x h

/-- C7: over one poll run the store's `progress` values never decrease:
starting from the initial value (5 after upload, 0 on restore), for any
sequence of status responses in lifecycle order (queued before active
before terminal, as BullMQ jobs with `attempts: 1` evolve) whose reported
percents are at most 100, every observed value is ≤ every later one —
the ratchet `max(currentProgress, serverProgress)` absorbs regressing
server values. -/
theorem c7_progress_monotone (p : Nat) (rs : List StatusResp)
    (hp : p ≤ 5)
    (hperc : ∀ r ∈ rs, r.percent.getD 0 ≤ 100)
    (hrank : List.Pairwise (fun a b => respRank a.status ≤ respRank b.status) rs) :
    List.Pairwise (· ≤ ·) (p :: pollTrace p rs) := by
  have h := pollTrace_mono rs p (by omega) hperc hrank (Or.inl hp)
  exact List.chain'_iff_pairwise.mp h.1

/-- Witness for C7: a queued poll, an active poll, a regressing active
poll (server restarts at 30 after 40 was shown) and completion. -/
theorem c7_progress_monotone_witness :
    List.Pairwise (· ≤ ·) (5 :: pollTrace 5
      [{ status := .pending, percent := none },
        { status := .building, percent := some 40 },
        { status := .building, percent := some 30 },
        { status := .completed, percent := some 100 }]) :=
  c7_progress_monotone 5
    [{ status := .pending, percent := none },
      { status := .building, percent := some 40 },
      { status := .building, percent := some 30 },
      { status := .completed, percent := some 100 }]
    (by decide) (by decide) (by decide)

theorem findIdx_sorted_rank (l : List (String × BullJob)) (id : String) (j : BullJob)
    (hsort : List.Sorted tsLe l)
    (hkeys : (l.map Prod.fst).Nodup)
    (hts : ∀ a ∈ l, ∀ b ∈ l, a.2.timestamp = b.2.timestamp → a = b)
    (hmem : (id, j) ∈ l) :
    l.findIdx (fun kv => kv.1 = id) =
      l.countP (fun kv => kv.2.timestamp < j.timestamp) := by
  induction l with
  | nil => simp at hmem
  | cons a rest ih =>
    have hsr := List.sorted_cons.mp hsort
    rw [List.map_cons, List.nodup_cons] at hkeys
    by_cases hk : a.1 = id
    · have haj : a = (id, j) := by
        rcases List.mem_cons.mp hmem with h | h
        · exact h.symm
        · have : id ∈ rest.map Prod.fst := List.mem_map_of_mem Prod.fst h
          rw [← hk] at this
          exact absurd this hkeys.1
      subst haj
      have hz : rest.countP
          (fun kv => kv.2.timestamp < ((id, j) : String × BullJob).2.timestamp) = 0 := by
        rw [List.countP_eq_zero]
        intro b hb
        have hle := hsr.1 b hb
        simp only [tsLe] at hle
        simp only [decide_eq_true_eq]
        omega
      simp [List.findIdx_cons, List.countP_cons, hz]
    · have hmr : (id, j) ∈ rest := by
        rcases List.mem_cons.mp hmem with h | h
        · rw [← h] at hk
          simp at hk
        · exact h
      have hts2 : a.2.timestamp < j.timestamp := by
        have hle := hsr.1 (id, j) hmr
        simp only [tsLe] at hle
        have hne2 : a.2.timestamp ≠ j.timestamp := by
          intro he
          have haeq := hts a (List.mem_cons_self a rest) (id, j)
            (List.mem_cons_of_mem a hmr) he
          rw [haeq] at hk
          simp at hk
        omega
      have ihr := ih hsr.2 hkeys.2
        (fun x hx y hy => hts x (List.mem_cons_of_mem a hx) y (List.mem_cons_of_mem a hy))
        hmr
      simp [List.findIdx_cons, List.countP_cons, hk, hts2, ihr]

/-- C8: for a task currently reported Pending, the queue query yields the
1-based FIFO rank (1 plus the number of Pending records with strictly
earlier `queuedAt`) together with the Pending total; for an Active or
terminal task, and for an unknown id, it yields no position. Stated for
stores with unique job ids and pairwise distinct `queuedAt` stamps among
the Pending records (ids are unique by construction; `queuedAt` is the
enqueue instant). -/
theorem c8_queue_position (q : QueueState) (id : String) (j : BullJob)
    (hnd : (q.jobs.map Prod.fst).Nodup)
    (hts : ∀ a ∈ pendingJobs q, ∀ b ∈ pendingJobs q,
      a.2.timestamp = b.2.timestamp → a = b)
    (hj : getJob q id = some j) :
    (isPendingState j.state = true →
      peekPosition q id =
        some (1 + (pendingJobs q).countP (fun kv => kv.2.timestamp < j.timestamp),
          (pendingJobs q).length)) ∧
    (isPendingState j.state = false → peekPosition q id = none) ∧
    (∀ id2, getJob q id2 = none → peekPosition q id2 = none) := by
  refine ⟨?_, ?_, ?_⟩
  · intro hpend
    have hkv : (id, j) ∈ q.jobs := by
      unfold getJob at hj
      cases hf : q.jobs.find? (fun kv => kv.1 = id) with
      | none => rw [hf] at hj; simp at hj
      | some kv =>
        rw [hf] at hj
        simp only [Option.map_some'] at hj
        have hkey : kv.1 = id := by simpa using List.find?_some hf
        have hm := List.mem_of_find?_eq_some hf
        obtain ⟨k, v⟩ := kv
        injection hj with hj2
        simp only at hkey hj2
        rw [hkey, hj2] at hm
        exact hm
    have hpmem : (id, j) ∈ pendingJobs q := by
      unfold pendingJobs
      rw [List.mem_filter]
      exact ⟨hkv, by simpa using hpend⟩
    have hperm : List.Perm ((pendingJobs q).insertionSort tsLe) (pendingJobs q) :=
      List.perm_insertionSort tsLe _
    have hsmem : (id, j) ∈ (pendingJobs q).insertionSort tsLe := hperm.mem_iff.mpr hpmem
    have hssort : List.Sorted tsLe ((pendingJobs q).insertionSort tsLe) :=
      List.sorted_insertionSort tsLe _
    have hpk : ((pendingJobs q).map Prod.fst).Nodup := by
      have hsub : List.Sublist (pendingJobs q) q.jobs := List.filter_sublist _
      exact hnd.sublist (hsub.map Prod.fst)
    have hsk : (((pendingJobs q).insertionSort tsLe).map Prod.fst).Nodup :=
      ((hperm.map Prod.fst).nodup_iff).mpr hpk
    have hst : ∀ a ∈ (pendingJobs q).insertionSort tsLe,
        ∀ b ∈ (pendingJobs q).insertionSort tsLe,
        a.2.timestamp = b.2.timestamp → a = b := by
      intro a ha b hb
      exact hts a (hperm.mem_iff.mp ha) b (hperm.mem_iff.mp hb)
    have hidx := findIdx_sorted_rank ((pendingJobs q).insertionSort tsLe) id j
      hssort hsk hst hsmem
    have hcnt : ((pendingJobs q).insertionSort tsLe).countP
        (fun kv => kv.2.timestamp < j.timestamp) =
        (pendingJobs q).countP (fun kv => kv.2.timestamp < j.timestamp) :=
      hperm.countP_eq _
    unfold peekPosition
    rw [hj]
    simp only [hpend, if_true]
    rw [hidx, hcnt, Nat.add_comm]
  · intro hnp
    unfold peekPosition
    rw [hj]
    simp [hnp]
  · intro id2 hnone
    unfold peekPosition
    rw [hnone]

/-- Witness for C8 on the concrete store: the Pending task `t2` is at
position 1 of 1, the Active task `t1` and an unknown id get no
position. -/
theorem c8_queue_position_witness :
    peekPosition sampleQueue "t2" =
      some (1 + (pendingJobs sampleQueue).countP
        (fun kv => kv.2.timestamp <
          ({ data := sampleJobData "t2", state := .waiting, timestamp := 1 }
            : BullJob).timestamp),
        (pendingJobs sampleQueue).length) ∧
    peekPosition sampleQueue "t1" = none ∧
    peekPosition sampleQueue "zz" = none :=
  ⟨(c8_queue_position sampleQueue "t2"
      { data := sampleJobData "t2", state := .waiting, timestamp := 1 }
      (by decide) (by decide) (by decide)).1 rfl,
    (c8_queue_position sampleQueue "t1"
      { data := sampleJobData "t1", state := .active, timestamp := 0 }
      (by decide) (by decide) (by decide)).2.1 rfl,
    (c8_queue_position sampleQueue "t2"
      { data := sampleJobData "t2", state := .waiting, timestamp := 1 }
      (by decide) (by decide) (by decide)).2.2 "zz" (by decide)⟩
